import Mathlib

/-!
Shallow embedding of the key-derivation and account-identity core of a
client-side read-only multi-chain HD wallet (files `src/lib/wallet.ts` and
`src/contexts/WalletContext.tsx`), together with theorems settling the
specification claims about it.

Conventions of the embedding:
* JavaScript numbers used as counters/indices are `Nat` or `Int`; template
  interpolation of a number renders its decimal form (`natStr` and `intStr`).
* JavaScript functions that may throw are `Except String`-valued; functions
  that return `null` on failure are `Option`-valued.
* Calls into third-party cryptographic dependencies (bip39 seed stretching,
  ed25519-hd-key path derivation, tweetnacl key expansion, the solana-web3
  keypair constructor, the ethers HD node and address computation) are fields
  of an abstract `Crypto` structure; everything the repository's own code
  computes (strings, paths, ids, lengths, state updates) is concrete.
* `Date.now()` is an explicit `now : Nat` argument at every call site that
  reads the clock.
-/

/-! ## Decimal rendering of numbers (JS template interpolation) -/

/-- Little-endian base-`b` digits with explicit fuel, so that the kernel can
evaluate it (proved equal to `Nat.digits` below). -/
def natDigitsF (b : Nat) : Nat → Nat → List Nat
  | 0, _ => []
  | fuel + 1, n => if n = 0 then [] else n % b :: natDigitsF b fuel (n / b)

/-- Little-endian base-`b` digits of `n` (kernel-computable). -/
def natDigits (b n : Nat) : List Nat := natDigitsF b n n

/-- Decimal rendering of a natural number, as JS renders a non-negative
integer inside a template literal. -/
def natStr (n : Nat) : String :=
  ⟨if n = 0 then ['0'] else ((natDigits 10 n).map Nat.digitChar).reverse⟩

/-- Decimal rendering of an integer, as JS renders it in a template literal. -/
def intStr (i : Int) : String :=
  if i < 0 then "-" ++ natStr i.natAbs else natStr i.natAbs



/-! ## JS string primitives over the character list (kernel-computable) -/

/-- `String.prototype.trim`: strip leading and trailing whitespace (identity
on the inner characters). Implemented on the character list so that closed
terms evaluate. -/
def jsTrim (s : String) : String :=
  ⟨(((s.data.dropWhile Char.isWhitespace).reverse).dropWhile
      Char.isWhitespace).reverse⟩

/-- `String.prototype.split(' ')` helper on a character list: split at every
single space, keeping empty fragments. -/
def splitOnSpaceAux : List Char → List (List Char)
  | [] => [[]]
  | c :: rest =>
    match splitOnSpaceAux rest with
    | [] => [[]]
    | h :: t => if c = ' ' then [] :: h :: t else (c :: h) :: t

/-- `String.prototype.split(' ')`. -/
def jsSplitSpace (s : String) : List String :=
  (splitOnSpaceAux s.data).map String.mk

/-- `s.startsWith("0x")` on the character list. -/
def startsWith0x (s : String) : Bool :=
  match s.data with
  | c1 :: c2 :: _ => c1 == '0' && c2 == 'x'
  | _ => false

/-- Drop the first two characters (the `0x` prefix) of a string. -/
def strDrop2 (s : String) : String := ⟨s.data.drop 2⟩

/-! ## Data model (`src/lib/wallet.ts`) -/

/-- The `BlockchainType` union `"solana" | "ethereum"`. -/
inductive BlockchainType where
  | solana
  | ethereum
deriving DecidableEq, Repr

/-- The string value of a `BlockchainType` member (the TS union is a union of
string literals; `${blockchain}` interpolates this string). -/
def chainTag : BlockchainType → String
  | .solana => "solana"
  | .ethereum => "ethereum"

/-- The `WalletAccount` interface. `isImported` and `importedPrivateKey` are
optional fields; an absent optional boolean is falsy, so `isImported` is a
`Bool` defaulting to `false`, and `importedPrivateKey` is an
`Option String` defaulting to `none`. `index` is a JS number that is `-1`
for imported accounts, hence `Int`. -/
structure WalletAccount where
  id : String
  name : String
  blockchain : BlockchainType
  publicKey : String
  derivationPath : String
  index : Int
  isImported : Bool := false
  importedPrivateKey : Option String := none
deriving DecidableEq, Repr

/-- JS `a || b` for an optional string `a`: `undefined` and `""` are falsy. -/
def jsOr (o : Option String) (dflt : String) : String :=
  match o with
  | none => dflt
  | some s => if s = "" then dflt else s

/-- JS truthiness of an optional string field. -/
def optTruthy (o : Option String) : Bool :=
  match o with
  | none => false
  | some s => s ≠ ""

/-! ## Derivation path strings (`DERIVATION_PATHS`) -/

/-- `DERIVATION_PATHS.solana`: the template literal
`` m/44'/501'/${index}'/0' `` (apostrophes written `\x27`). -/
def DERIVATION_PATHS_solana (index : Int) : String :=
  "m/44\x27/501\x27/" ++ intStr index ++ "\x27/0\x27"

/-- `DERIVATION_PATHS.ethereum`: the template literal
`` m/44'/60'/0'/0/${index} ``. -/
def DERIVATION_PATHS_ethereum (index : Int) : String :=
  "m/44\x27/60\x27/0\x27/0/" ++ intStr index

/-- Specification-side rendering of a BIP-44 style derivation path from a list
of (segment value, hardened?) pairs: `m`, then one `/<n>` per segment with an
ASCII apostrophe appended exactly when the segment is hardened. Written from
the spec's words, to be compared with the source's template literals. -/
def renderPathSegs (segs : List (Nat × Bool)) : String :=
  "m" ++ String.join (segs.map fun s =>
    "/" ++ natStr s.1 ++ (if s.2 then "\x27" else ""))

/-! ## Base58 codec (the `bs58` dependency, modelled concretely) -/

/-- The Bitcoin base58 alphabet used by the `bs58` dependency. -/
def base58Alphabet : List Char :=
  "123456789ABCDEFGHJKLMNPQRSTUVWXYZabcdefghijkmnopqrstuvwxyz".data

/-- Index of a character in the base58 alphabet, `none` if not a base58
character. -/
def b58Index (ch : Char) : Option Nat :=
  base58Alphabet.findIdx? (fun c => c == ch)

/-- `bs58.decode`: modelled from the base-x algorithm the dependency uses.
A string of base58 characters denotes one leading zero byte per leading `1`
followed by the big-endian base-256 digits of the base58 value of the rest;
any non-alphabet character makes decoding throw (here: `none`). -/
def bs58decode (s : String) : Option (List Nat) :=
  if s.data.all (fun ch => (b58Index ch).isSome) then
    let z := (s.data.takeWhile (fun ch => ch == '1')).length
    let rest := s.data.dropWhile (fun ch => ch == '1')
    let num := rest.foldl (fun acc ch => acc * 58 + ((b58Index ch).getD 0)) 0
    some (List.replicate z 0 ++ if num = 0 then [] else (natDigits 256 num).reverse)
  else none

/-- `bs58.encode`: one `1` per leading zero byte, then the base58 digits of the
big-endian value of the bytes. -/
def bs58encode (bytes : List Nat) : String :=
  let z := (bytes.takeWhile (fun b => b == 0)).length
  let num := bytes.foldl (fun acc b => acc * 256 + b) 0
  ⟨List.replicate z '1' ++
    (if num = 0 then []
     else ((natDigits 58 num).reverse.map (fun d => base58Alphabet.getD d ' ')))⟩

/-! ## Hex and secp256k1 scalar checks (the `ethers` dependency) -/

/-- A hex digit as accepted by the character class `[a-fA-F0-9]`. -/
def isHexCharB (c : Char) : Bool :=
  c.isDigit || ('a' ≤ c && c ≤ 'f') || ('A' ≤ c && c ≤ 'F')

/-- Numeric value of a hex digit. -/
def hexCharVal (c : Char) : Nat :=
  if c.isDigit then c.toNat - 48
  else if 'a' ≤ c then c.toNat - 87
  else c.toNat - 55

/-- The regular expression `^0x[a-fA-F0-9]{64}$` as a decidable predicate. -/
def isHexKey (s : String) : Bool :=
  startsWith0x s && s.length == 66 && (strDrop2 s).data.all isHexCharB

/-- The scalar denoted by a `0x`-prefixed hex string. -/
def hexScalar (s : String) : Nat :=
  (strDrop2 s).data.foldl (fun acc c => acc * 16 + hexCharVal c) 0

/-- The order of the secp256k1 group: a private key scalar is valid iff it is
nonzero and below this bound (checked by the `ethers` signing-key code). -/
def secpOrder : Nat :=
  0xFFFFFFFFFFFFFFFFFFFFFFFFFFFFFFFEBAAEDCE6AF48A03BBFD25E8CD0364141

/-- The `0x`-prefix normalization done before constructing an ethers wallet:
`if (!key.startsWith("0x")) key = "0x" + key`. -/
def normalize0x (s : String) : String :=
  if startsWith0x s then s else "0x" ++ s

/-! ## Abstract cryptographic dependencies -/

/-- Result of `nacl.sign.keyPair.fromSeed`. -/
structure NaclKeyPair where
  publicKey : List Nat
  secretKey : List Nat

/-- Result of `ethers.HDNodeWallet.fromPhrase`. -/
structure EthNode where
  address : String
  privateKey : String

/-- The cryptographic primitives this module calls in its dependencies.
They are kept abstract: the theorems below hold for every implementation.
* `bip39Seed`: `bip39.mnemonicToSeedSync` (PBKDF2; total on every string),
* `derivePathKey`: `ed25519-hd-key`'s `derivePath(path, seedHex).key`
  (throws on a malformed path or seed, hence `Except`),
* `naclFromSeed`: `nacl.sign.keyPair.fromSeed`,
* `keypairPub`: `Keypair.fromSecretKey(..).publicKey.toBase58()` of the
  solana-web3 dependency; `none` when the constructor throws,
* `hdNodeFromPhrase`: `ethers.HDNodeWallet.fromPhrase(phrase, undefined, path)`
  (throws on an invalid phrase or path),
* `ethAddress`: the address computed by `new ethers.Wallet(key)` for a key
  that passed the wallet constructor's validation. -/
structure Crypto where
  bip39Seed : String → List Nat
  derivePathKey : String → String → Except String (List Nat)
  naclFromSeed : List Nat → NaclKeyPair
  keypairPub : List Nat → Option String
  hdNodeFromPhrase : String → String → Except String EthNode
  ethAddress : String → String

/-- Lowercase hex rendering of a byte buffer (`seed.toString("hex")`). -/
def bytesToHex (bs : List Nat) : String :=
  ⟨(bs.map fun b => [Nat.digitChar (b / 16 % 16), Nat.digitChar (b % 16)]).flatten⟩

/-- `new ethers.Wallet(key)`, modelled from the ethers v6 validation: the key
must be `0x` + 64 hex digits and its scalar a valid secp256k1 private key
(nonzero, below the curve order); on success the wallet exposes `address`. -/
def newWallet (c : Crypto) (key : String) : Option String :=
  if isHexKey key && decide (0 < hexScalar key) && decide (hexScalar key < secpOrder) then
    some (c.ethAddress key)
  else none

/-! ## Derivation (`src/lib/wallet.ts`) -/

/-- Result of `deriveSolanaKeypair`. -/
structure SolDerived where
  publicKey : String
  secretKey : List Nat
  derivationPath : String

/-- Result of `deriveEthereumWallet`. -/
structure EthDerived where
  publicKey : String
  privateKey : String
  derivationPath : String

/-- `mnemonicToSeed`: throws `"Invalid mnemonic provided"` on an empty (falsy)
mnemonic, otherwise returns `bip39.mnemonicToSeedSync(mnemonic.trim())`
(PBKDF2, total, so the surrounding catch never fires). -/
def mnemonicToSeed (c : Crypto) (mnemonic : String) : Except String (List Nat) :=
  if mnemonic = "" then .error "Invalid mnemonic provided"
  else .ok (c.bip39Seed (jsTrim mnemonic))

/-- `deriveSolanaKeypair`: seed from the mnemonic, path from
`DERIVATION_PATHS.solana`, `derivePath(path, seed.toString("hex")).key`,
`nacl.sign.keyPair.fromSeed`, then `Keypair.fromSecretKey` for the public
key; exceptions propagate (`Except`). -/
def deriveSolanaKeypair (c : Crypto) (mnemonic : String) (index : Int) :
    Except String SolDerived := do
  let seed ← mnemonicToSeed c mnemonic
  let path := DERIVATION_PATHS_solana index
  let derivedSeed ← c.derivePathKey path (bytesToHex seed)
  let keypair := c.naclFromSeed derivedSeed
  match c.keypairPub keypair.secretKey with
  | none => .error "provided secretKey is invalid"
  | some pub => .ok ⟨pub, keypair.secretKey, path⟩

/-- `deriveEthereumWallet`: path from `DERIVATION_PATHS.ethereum`,
`HDNodeWallet.fromPhrase(mnemonic.trim(), undefined, path)`. -/
def deriveEthereumWallet (c : Crypto) (mnemonic : String) (index : Int) :
    Except String EthDerived :=
  (c.hdNodeFromPhrase (jsTrim mnemonic) (DERIVATION_PATHS_ethereum index)).map
    fun node => ⟨node.address, node.privateKey, DERIVATION_PATHS_ethereum index⟩

/-- The account id template `` `${blockchain}-${index}-${Date.now()}` ``. -/
def mkId (blockchain : BlockchainType) (index : Int) (now : Nat) : String :=
  chainTag blockchain ++ "-" ++ intStr index ++ "-" ++ natStr now

/-- The display name of the chain used in default account names. -/
def chainDisplay : BlockchainType → String
  | .solana => "Solana"
  | .ethereum => "Ethereum"

/-- `createAccount(mnemonic, blockchain, index, name?)`: builds the id and the
default name, derives for the requested chain, and returns the new record
(no `isImported`/`importedPrivateKey` fields). -/
def createAccount (c : Crypto) (now : Nat) (mnemonic : String)
    (blockchain : BlockchainType) (index : Int) (name : Option String) :
    Except String WalletAccount :=
  let id := mkId blockchain index now
  let accountName := jsOr name (chainDisplay blockchain ++ " Account " ++ intStr (index + 1))
  match blockchain with
  | .solana =>
    (deriveSolanaKeypair c mnemonic index).map fun d =>
      ⟨id, accountName, .solana, d.publicKey, d.derivationPath, index, false, none⟩
  | .ethereum =>
    (deriveEthereumWallet c mnemonic index).map fun d =>
      ⟨id, accountName, .ethereum, d.publicKey, d.derivationPath, index, false, none⟩

/-- `getPrivateKey(mnemonic, account)`: stored key for imported accounts whose
`importedPrivateKey` is truthy; otherwise throws
`"Mnemonic required for non-imported accounts"` when the mnemonic is null,
else re-derives (solana: base58 of the 64-byte secret key; ethereum: the hex
private key). -/
def getPrivateKey (c : Crypto) (mnemonic : Option String)
    (account : WalletAccount) : Except String String :=
  if account.isImported && optTruthy account.importedPrivateKey then
    .ok (account.importedPrivateKey.getD "")
  else
    match mnemonic with
    | none => .error "Mnemonic required for non-imported accounts"
    | some m =>
      match account.blockchain with
      | .solana =>
        (deriveSolanaKeypair c m account.index).map fun d => bs58encode d.secretKey
      | .ethereum =>
        (deriveEthereumWallet c m account.index).map fun d => d.privateKey

/-! ## Import key validation and import (`src/lib/wallet.ts`) -/

/-- `validateSolanaPrivateKey`: base58-decode the trimmed text; reject unless
the payload has 64 or 32 bytes; for 64 bytes the solana keypair constructor
must succeed; a 32-byte seed always expands (`nacl` is total on 32 bytes). -/
def validateSolanaPrivateKey (c : Crypto) (privateKey : String) : Bool :=
  match bs58decode (jsTrim privateKey) with
  | none => false
  | some decoded =>
    if decoded.length ≠ 64 && decoded.length ≠ 32 then false
    else if decoded.length = 64 then (c.keypairPub decoded).isSome
    else true

/-- `validateEthereumPrivateKey`: trim, add `0x` when absent, test
`^0x[a-fA-F0-9]{64}$`, then construct an ethers wallet (which checks the
scalar); any throw yields `false`. -/
def validateEthereumPrivateKey (c : Crypto) (privateKey : String) : Bool :=
  let key := normalize0x (jsTrim privateKey)
  if !isHexKey key then false
  else (newWallet c key).isSome

/-- `importSolanaAccount`: decode the trimmed key; build a keypair from 64
bytes directly or from a 32-byte seed via nacl expansion; on success return
the imported record storing the trimmed text; on any failure return null. -/
def importSolanaAccount (c : Crypto) (now : Nat) (privateKey : String)
    (name : Option String) : Option WalletAccount :=
  match bs58decode (jsTrim privateKey) with
  | none => none
  | some decoded =>
    let mk : String → WalletAccount := fun pub =>
      ⟨"solana-imported-" ++ natStr now, jsOr name "Imported Solana Account",
        .solana, pub, "imported", -1, true, some (jsTrim privateKey)⟩
    if decoded.length = 64 then (c.keypairPub decoded).map mk
    else if decoded.length = 32 then
      (c.keypairPub (c.naclFromSeed decoded).secretKey).map mk
    else none

/-- `importEthereumAccount`: trim, add `0x` when absent, construct an ethers
wallet; on success return the imported record storing the normalized key;
on any failure return null. -/
def importEthereumAccount (c : Crypto) (now : Nat) (privateKey : String)
    (name : Option String) : Option WalletAccount :=
  let key := normalize0x (jsTrim privateKey)
  (newWallet c key).map fun addr =>
    ⟨"ethereum-imported-" ++ natStr now, jsOr name "Imported Ethereum Account",
      .ethereum, addr, "imported", -1, true, some key⟩

/-- `importAccountFromPrivateKey`: dispatch on the chain tag. -/
def importAccountFromPrivateKey (c : Crypto) (now : Nat) (privateKey : String)
    (blockchain : BlockchainType) (name : Option String) : Option WalletAccount :=
  match blockchain with
  | .solana => importSolanaAccount c now privateKey name
  | .ethereum => importEthereumAccount c now privateKey name

/-! ## Provider state and operations (`src/contexts/WalletContext.tsx`) -/

/-- The state held by the wallet provider: the nullable mnemonic, the ordered
account list, and the two per-chain derivation counters (each starts at 0 and
is only incremented). -/
structure ProviderState where
  mnemonic : Option String
  accounts : List WalletAccount
  solanaIndex : Nat
  ethereumIndex : Nat
deriving DecidableEq, Repr

/-- The per-chain counter read by `addAccount`. -/
def chainIndex (s : ProviderState) : BlockchainType → Nat
  | .solana => s.solanaIndex
  | .ethereum => s.ethereumIndex

/-- `addAccount(blockchain, name?)`: throws `"Wallet not initialized"` when the
mnemonic is null; otherwise reads the current per-chain index, calls
`createAccount`, appends the record, and increments only that chain's
index. A throw inside `createAccount` propagates before any state update. -/
def addAccount (c : Crypto) (now : Nat) (blockchain : BlockchainType)
    (name : Option String) (s : ProviderState) :
    Except String (WalletAccount × ProviderState) :=
  match s.mnemonic with
  | none => .error "Wallet not initialized"
  | some m => do
    let index : Int := chainIndex s blockchain
    let account ← createAccount c now m blockchain index name
    .ok (account,
      { s with
        accounts := s.accounts ++ [account]
        solanaIndex := if blockchain = .solana then s.solanaIndex + 1 else s.solanaIndex
        ethereumIndex := if blockchain = .ethereum then s.ethereumIndex + 1 else s.ethereumIndex })

/-- `removeAccount(accountId)`: filters the list by id; the indices are not
touched. -/
def removeAccount (accountId : String) (s : ProviderState) : ProviderState :=
  { s with accounts := s.accounts.filter (fun a => a.id ≠ accountId) }

/-- `renameAccount(accountId, newName)`: maps over the list replacing the name
of the matching record; the new name is not validated. -/
def renameAccount (accountId : String) (newName : String) (s : ProviderState) :
    ProviderState :=
  { s with accounts :=
      s.accounts.map fun a =>
        if a.id = accountId then { a with name := newName } else a }

/-- `getAccountPrivateKey(account)`: stored key for imported accounts with a
truthy stored key; `null` when the mnemonic is null; otherwise delegates to
`getPrivateKey` (whose exceptions propagate). -/
def getAccountPrivateKey (c : Crypto) (mnemonic : Option String)
    (account : WalletAccount) : Except String (Option String) :=
  if account.isImported && optTruthy account.importedPrivateKey then
    .ok (some (account.importedPrivateKey.getD ""))
  else
    match mnemonic with
    | none => .ok none
    | some m => (getPrivateKey c (some m) account).map some

/-! ## Operation traces over the provider state -/

/-- The provider operations the claims quantify over. -/
inductive WalletOp where
  | add (now : Nat) (blockchain : BlockchainType) (name : Option String)
  | remove (accountId : String)
  | rename (accountId : String) (newName : String)

/-- Whether an `Except` computation succeeded. -/
def exceptOk {ε α : Type} : Except ε α → Bool
  | .ok _ => true
  | .error _ => false

/-- One provider step. A thrown `addAccount` leaves the state unchanged (the
exception propagates before any `set` call runs). -/
def stepOp (c : Crypto) (s : ProviderState) : WalletOp → ProviderState
  | .add now b name =>
    match addAccount c now b name s with
    | .ok (_, s') => s'
    | .error _ => s
  | .remove accountId => removeAccount accountId s
  | .rename accountId newName => renameAccount accountId newName s

/-- Run a list of provider operations. -/
def runOps (c : Crypto) (s : ProviderState) : List WalletOp → ProviderState
  | [] => s
  | op :: rest => runOps c (stepOp c s op) rest

/-- Number of successful `addAccount` calls for one chain along a trace. -/
def countOkAdds (c : Crypto) (b : BlockchainType) :
    ProviderState → List WalletOp → Nat
  | _, [] => 0
  | s, op :: rest =>
    (match op with
     | .add now b' name =>
       if b' = b && exceptOk (addAccount c now b' name s) then 1 else 0
     | _ => 0) + countOkAdds c b (stepOp c s op) rest

/-- The records returned by the successful `addAccount` calls of a trace, in
call order. -/
def createdRecords (c : Crypto) : ProviderState → List WalletOp → List WalletAccount
  | _, [] => []
  | s, op :: rest =>
    (match op with
     | .add now b name =>
       match addAccount c now b name s with
       | .ok (a, _) => [a]
       | .error _ => []
     | _ => []) ++ createdRecords c (stepOp c s op) rest

/-! ## SHA-256 (for the bip39 checksum), on `Nat` words mod 2^32 -/

/-- The 64 SHA-256 round constants (decimal). -/
def sha256K : List Nat :=
  [1116352408, 1899447441, 3049323471, 3921009573, 961987163,
   1508970993, 2453635748, 2870763221, 3624381080, 310598401,
   607225278, 1426881987, 1925078388, 2162078206, 2614888103,
   3248222580, 3835390401, 4022224774, 264347078, 604807628,
   770255983, 1249150122, 1555081692, 1996064986, 2554220882,
   2821834349, 2952996808, 3210313671, 3336571891, 3584528711,
   113926993, 338241895, 666307205, 773529912, 1294757372,
   1396182291, 1695183700, 1986661051, 2177026350, 2456956037,
   2730485921, 2820302411, 3259730800, 3345764771, 3516065817,
   3600352804, 4094571909, 275423344, 430227734, 506948616,
   659060556, 883997877, 958139571, 1322822218, 1537002063,
   1747873779, 1955562222, 2024104815, 2227730452, 2361852424,
   2428436474, 2756734187, 3204031479, 3329325298]

/-- The SHA-256 initial hash value (decimal). -/
def sha256H0 : List Nat :=
  [1779033703, 3144134277, 1013904242, 2773480762,
   1359893119, 2600822924, 528734635, 1541459225]

/-- 32-bit right rotation. -/
def rotr32 (x n : Nat) : Nat := ((x >>> n) ||| (x <<< (32 - n))) % 4294967296

/-- SHA-256 message-schedule sigma functions. -/
def sSig0 (x : Nat) : Nat := (rotr32 x 7) ^^^ (rotr32 x 18) ^^^ (x >>> 3)

def sSig1 (x : Nat) : Nat := (rotr32 x 17) ^^^ (rotr32 x 19) ^^^ (x >>> 10)

/-- SHA-256 compression Sigma functions. -/
def bSig0 (x : Nat) : Nat := (rotr32 x 2) ^^^ (rotr32 x 13) ^^^ (rotr32 x 22)

def bSig1 (x : Nat) : Nat := (rotr32 x 6) ^^^ (rotr32 x 11) ^^^ (rotr32 x 25)

/-- SHA-256 choice function (`¬x` as xor with the 32-bit mask). -/
def sha256Ch (x y z : Nat) : Nat := (x &&& y) ^^^ ((x ^^^ 0xffffffff) &&& z)

/-- SHA-256 majority function. -/
def sha256Maj (x y z : Nat) : Nat := (x &&& y) ^^^ (x &&& z) ^^^ (y &&& z)

/-- SHA-256 padding: `0x80`, zeros to 56 mod 64, 8-byte big-endian bit length. -/
def sha256Pad (msg : List Nat) : List Nat :=
  let len := msg.length
  let bitLen := len * 8
  let k := (56 + 64 - (len + 1) % 64) % 64
  msg ++ [0x80] ++ List.replicate k 0 ++
    [bitLen / 2 ^ 56 % 256, bitLen / 2 ^ 48 % 256, bitLen / 2 ^ 40 % 256,
     bitLen / 2 ^ 32 % 256, bitLen / 2 ^ 24 % 256, bitLen / 2 ^ 16 % 256,
     bitLen / 2 ^ 8 % 256, bitLen % 256]

/-- Big-endian 4-byte groups to 32-bit words. -/
def wordsOfBytes : List Nat → List Nat
  | a :: b :: c :: d :: rest =>
    (((a * 256 + b) * 256 + c) * 256 + d) :: wordsOfBytes rest
  | _ => []

/-- Split a word list into blocks of 16 (explicit fuel keeps the recursion
structural, so closed terms evaluate). -/
def chunks16F : Nat → List Nat → List (List Nat)
  | 0, _ => []
  | _, [] => []
  | fuel + 1, l => l.take 16 :: chunks16F fuel (l.drop 16)

/-- Split a word list into blocks of 16. -/
def chunks16 (l : List Nat) : List (List Nat) := chunks16F l.length l

/-- Extend a 16-word block to the 64-word message schedule. -/
def sha256Schedule (ws : List Nat) : List Nat :=
  (List.range 48).foldl
    (fun w t =>
      w ++ [(sSig1 (w.getD (t + 14) 0) + w.getD (t + 9) 0 +
             sSig0 (w.getD (t + 1) 0) + w.getD t 0) % 4294967296])
    ws

/-- One SHA-256 compression round applied to a block. -/
def sha256Compress (hs : List Nat) (block : List Nat) : List Nat :=
  let w := sha256Schedule block
  let init : Nat × Nat × Nat × Nat × Nat × Nat × Nat × Nat :=
    (hs.getD 0 0, hs.getD 1 0, hs.getD 2 0, hs.getD 3 0,
     hs.getD 4 0, hs.getD 5 0, hs.getD 6 0, hs.getD 7 0)
  let fin := (List.range 64).foldl
    (fun st t =>
      match st with
      | (a, b, c, d, e, f, g, h) =>
        let t1 := (h + bSig1 e + sha256Ch e f g + sha256K.getD t 0 + w.getD t 0) % 4294967296
        let t2 := (bSig0 a + sha256Maj a b c) % 4294967296
        ((t1 + t2) % 4294967296, a, b, c, (d + t1) % 4294967296, e, f, g))
    init
  match fin with
  | (a, b, c, d, e, f, g, h) =>
    [(hs.getD 0 0 + a) % 4294967296, (hs.getD 1 0 + b) % 4294967296,
     (hs.getD 2 0 + c) % 4294967296, (hs.getD 3 0 + d) % 4294967296,
     (hs.getD 4 0 + e) % 4294967296, (hs.getD 5 0 + f) % 4294967296,
     (hs.getD 6 0 + g) % 4294967296, (hs.getD 7 0 + h) % 4294967296]

/-- SHA-256 of a byte list, as 32 bytes. -/
def sha256Bytes (msg : List Nat) : List Nat :=
  let blocks := chunks16 (wordsOfBytes (sha256Pad msg))
  let hh := blocks.foldl sha256Compress sha256H0
  (hh.map fun w =>
    [w / 2 ^ 24 % 256, w / 2 ^ 16 % 256, w / 2 ^ 8 % 256, w % 256]).flatten

/-! ## bip39 mnemonic validation (the `bip39` dependency, modelled) -/

/-- Big-endian bits of a number at a fixed width. -/
def natBits (width n : Nat) : List Bool :=
  (List.range width).map fun k => n.testBit (width - 1 - k)

/-- Big-endian bits of a byte list. -/
def bytesToBits (bs : List Nat) : List Bool := (bs.map (natBits 8)).flatten

/-- Value of a big-endian bit chunk. -/
def bitsVal (bits : List Bool) : Nat :=
  bits.foldl (fun acc b => acc * 2 + (if b then 1 else 0)) 0

/-- Bytes of a big-endian bit list, 8 bits per byte (the library chunks with
`/(.{1,8})/g`, so a trailing short chunk becomes a short byte; the call sites
below always pass a multiple of 8). -/
def bytesOfBits : List Bool → List Nat
  | b0 :: b1 :: b2 :: b3 :: b4 :: b5 :: b6 :: b7 :: rest =>
    bitsVal [b0, b1, b2, b3, b4, b5, b6, b7] :: bytesOfBits rest
  | [] => []
  | l => [bitsVal l]

/-- Index of a word in the BIP-39 English wordlist. Modelled fragment of the
2048-word list of the `bip39` dependency: it lists exactly the words that the
theorems in this file evaluate, at their standard indices (`abandon` is word
0, `about` is word 3); on every other string evaluated below (the empty
string, uppercase variants, `zzzz`) the full list also has no entry, the full
list being 2048 distinct nonempty lowercase ASCII words ending at `zoo`. -/
def bip39WordIndex (w : String) : Option Nat :=
  if w = "abandon" then some 0
  else if w = "about" then some 3
  else none

/-- Look up every word; `none` as soon as one word is outside the wordlist
(the library throws at the first unknown word). -/
def wordIndices : List String → Option (List Nat)
  | [] => some []
  | w :: ws =>
    match bip39WordIndex w, wordIndices ws with
    | some i, some is => some (i :: is)
    | _, _ => none

/-- `bip39.validateMnemonic` (via `mnemonicToEntropy`): split on single
spaces, word count divisible by 3, every word in the wordlist, entropy length
16–32 bytes and divisible by 4, and the checksum bits must equal the leading
bits of the SHA-256 of the entropy. Any failure is caught and becomes
`false`. (The library first applies Unicode NFKD normalization, which is the
identity on the ASCII inputs considered here; it does not lowercase and does
not collapse runs of spaces.) -/
def bip39Validate (s : String) : Bool :=
  let ws := jsSplitSpace s
  if ws.length % 3 ≠ 0 then false
  else
    match wordIndices ws with
    | none => false
    | some idxs =>
      let bits := (idxs.map (natBits 11)).flatten
      let divider := bits.length / 33 * 32
      let entBits := bits.take divider
      let csBits := bits.drop divider
      let entBytes := bytesOfBits entBits
      if entBytes.length < 16 || entBytes.length > 32 || entBytes.length % 4 ≠ 0 then
        false
      else
        csBits == (bytesToBits (sha256Bytes entBytes)).take (entBytes.length * 8 / 32)

/-- `validateMnemonic` (`src/lib/wallet.ts`): falsy or non-string input gives
`false`; otherwise the trimmed phrase is passed to `bip39.validateMnemonic`. -/
def validateMnemonic (mnemonic : String) : Bool :=
  if mnemonic = "" then false
  else bip39Validate (jsTrim mnemonic)

/-- The standard all-zero-entropy 12-word test phrase. -/
def goodPhrase : String :=
  "abandon abandon abandon abandon abandon abandon abandon abandon abandon abandon abandon about"

/-! ## A concrete `Crypto` instance for closed evaluations -/

/-- A concrete stand-in implementation of the cryptographic dependencies, used
to evaluate the state machine and the import/derivation plumbing on closed
inputs (the theorems about the plumbing hold for every `Crypto`). -/
def testCrypto : Crypto where
  bip39Seed := fun _ => List.replicate 64 0
  derivePathKey := fun _ _ => .ok (List.replicate 32 0)
  naclFromSeed := fun _ => ⟨List.replicate 32 0, List.replicate 64 0⟩
  keypairPub := fun _ => some "TestPub"
  hdNodeFromPhrase := fun _ _ => .ok ⟨"0xAddr", "0xPriv"⟩
  ethAddress := fun _ => "0xAddr"

/-! ## Helper lemmas about decimal rendering and list splitting -/

theorem natDigitsF_eq (b : Nat) (hb : 1 < b) :
    ∀ fuel n, n ≤ fuel → natDigitsF b fuel n = Nat.digits b n := by
  intro fuel
  induction fuel with
  | zero =>
    intro n hn
    interval_cases n
    simp [natDigitsF]
  | succ f ih =>
    intro n hn
    by_cases h0 : n = 0
    · simp [natDigitsF, h0]
    · simp only [natDigitsF, if_neg h0]
      rw [Nat.digits_def' hb (Nat.pos_of_ne_zero h0)]
      congr 1
      apply ih
      have := Nat.div_lt_self (Nat.pos_of_ne_zero h0) hb
      omega

theorem natDigits_eq {b : Nat} (hb : 1 < b) (n : Nat) :
    natDigits b n = Nat.digits b n :=
  natDigitsF_eq b hb n n le_rfl

theorem natStr_zero : natStr 0 = "0" := rfl

theorem intStr_ofNat (n : Nat) : intStr (Int.ofNat n) = natStr n := by
  unfold intStr
  rw [if_neg (by exact Int.not_lt.mpr (Int.ofNat_nonneg n))]
  rfl

theorem digitChar_injOn : ∀ a, a < 10 → ∀ b, b < 10 →
    Nat.digitChar a = Nat.digitChar b → a = b := by decide

theorem digitChar_ne_dash : ∀ a, a < 10 → Nat.digitChar a ≠ Char.ofNat 45 := by
  decide

theorem map_digitChar_inj : ∀ {l₁ l₂ : List Nat}, (∀ d ∈ l₁, d < 10) →
    (∀ d ∈ l₂, d < 10) → l₁.map Nat.digitChar = l₂.map Nat.digitChar →
    l₁ = l₂ := by
  intro l₁
  induction l₁ with
  | nil =>
    intro l₂ _ _ h
    cases l₂ with
    | nil => rfl
    | cons b t => simp at h
  | cons a t ih =>
    intro l₂ h₁ h₂ h
    cases l₂ with
    | nil => simp at h
    | cons b t₂ =>
      simp only [List.map_cons, List.cons.injEq] at h
      have ha : a < 10 := h₁ a (by simp)
      have hb : b < 10 := h₂ b (by simp)
      have hab := digitChar_injOn a ha b hb h.1
      have ht := ih (fun d hd => h₁ d (by simp [hd]))
        (fun d hd => h₂ d (by simp [hd])) h.2
      rw [hab, ht]

theorem natStr_inj : ∀ {m n : Nat}, natStr m = natStr n → m = n := by
  intro m n h
  have h' : (natStr m).data = (natStr n).data := by rw [h]
  unfold natStr at h'
  simp only [String.data, natDigits_eq (by norm_num : (1 : Nat) < 10)] at h'
  by_cases hm : m = 0 <;> by_cases hn : n = 0
  · rw [hm, hn]
  · exfalso
    rw [if_pos hm, if_neg hn] at h'
    have h'' : (Nat.digits 10 n).map Nat.digitChar = ['0'] := by
      have := congrArg List.reverse h'
      simpa using this.symm
    rcases hl : Nat.digits 10 n with _ | ⟨d, ds⟩
    · rw [hl] at h''; simp at h''
    · rw [hl] at h''
      simp only [List.map_cons, List.cons.injEq] at h''
      have hds : ds = [] := List.map_eq_nil_iff.mp h''.2
      have hd10 : d < 10 := Nat.digits_lt_base (by norm_num) (by rw [hl]; simp)
      have hd0 : d = 0 := digitChar_injOn d hd10 0 (by norm_num) (by simpa using h''.1)
      have hn0 : n = 0 := by
        have hr := Nat.ofDigits_digits 10 n
        rw [hl, hds, hd0] at hr
        simpa [Nat.ofDigits] using hr.symm
      exact hn hn0
  · exfalso
    rw [if_neg hm, if_pos hn] at h'
    have h'' : (Nat.digits 10 m).map Nat.digitChar = ['0'] := by
      have := congrArg List.reverse h'
      simpa using this
    rcases hl : Nat.digits 10 m with _ | ⟨d, ds⟩
    · rw [hl] at h''; simp at h''
    · rw [hl] at h''
      simp only [List.map_cons, List.cons.injEq] at h''
      have hds : ds = [] := List.map_eq_nil_iff.mp h''.2
      have hd10 : d < 10 := Nat.digits_lt_base (by norm_num) (by rw [hl]; simp)
      have hd0 : d = 0 := digitChar_injOn d hd10 0 (by norm_num) (by simpa using h''.1)
      have hm0 : m = 0 := by
        have hr := Nat.ofDigits_digits 10 m
        rw [hl, hds, hd0] at hr
        simpa [Nat.ofDigits] using hr.symm
      exact hm hm0
  · rw [if_neg hm, if_neg hn] at h'
    have h'' : (Nat.digits 10 m).map Nat.digitChar = (Nat.digits 10 n).map Nat.digitChar := by
      have := congrArg List.reverse h'
      simpa using this
    have hdig := map_digitChar_inj
      (fun d hd => Nat.digits_lt_base (by norm_num) hd)
      (fun d hd => Nat.digits_lt_base (by norm_num) hd) h''
    exact Nat.digits_inj_iff.mp hdig

theorem dash_not_mem_natStr (n : Nat) : Char.ofNat 45 ∉ (natStr n).data := by
  unfold natStr
  simp only [String.data, natDigits_eq (by norm_num : (1 : Nat) < 10)]
  by_cases hn : n = 0
  · rw [if_pos hn]; decide
  · rw [if_neg hn]
    intro hmem
    rw [List.mem_reverse, List.mem_map] at hmem
    obtain ⟨d, hd, hdc⟩ := hmem
    exact digitChar_ne_dash d (Nat.digits_lt_base (by norm_num) hd) hdc

/-- Splitting a list at a separator that occurs in neither prefix is
unambiguous. -/
theorem append_sep_inj {α : Type} (sep : α) :
    ∀ (a c b d : List α), sep ∉ a → sep ∉ c →
    a ++ sep :: b = c ++ sep :: d → a = c ∧ b = d := by
  intro a
  induction a with
  | nil =>
    intro c b d _ hc h
    cases c with
    | nil => simpa using h
    | cons y ys =>
      exfalso
      simp only [List.nil_append, List.cons_append, List.cons.injEq] at h
      exact hc (h.1 ▸ List.mem_cons_self y ys)
  | cons x xs ih =>
    intro c b d ha hc h
    cases c with
    | nil =>
      exfalso
      simp only [List.cons_append, List.nil_append, List.cons.injEq] at h
      exact ha (h.1 ▸ List.mem_cons_self x xs)
    | cons y ys =>
      simp only [List.cons_append, List.cons.injEq] at h
      have hxs : sep ∉ xs := fun hm => ha (List.mem_cons_of_mem x hm)
      have hys : sep ∉ ys := fun hm => hc (List.mem_cons_of_mem y hm)
      obtain ⟨h1, h2⟩ := ih ys b d hxs hys h.2
      exact ⟨by rw [h.1, h1], h2⟩

theorem dash_not_mem_chainTag (b : BlockchainType) :
    Char.ofNat 45 ∉ (chainTag b).data := by
  cases b <;> decide

theorem chainTag_data_inj {b₁ b₂ : BlockchainType}
    (h : (chainTag b₁).data = (chainTag b₂).data) : b₁ = b₂ := by
  cases b₁ <;> cases b₂ <;> first | rfl | (exfalso; revert h; decide)

theorem dash_not_mem_intStr {i : Int} (h : 0 ≤ i) :
    Char.ofNat 45 ∉ (intStr i).data := by
  unfold intStr
  rw [if_neg (Int.not_lt.mpr h)]
  exact dash_not_mem_natStr i.natAbs

theorem mkId_data (b : BlockchainType) (i : Int) (t : Nat) :
    (mkId b i t).data =
      (chainTag b).data ++
        Char.ofNat 45 :: ((intStr i).data ++ Char.ofNat 45 :: (natStr t).data) := by
  unfold mkId
  simp only [String.data_append, List.append_assoc]
  rfl

/-- Two generated ids agree only if chain and index agree (for the
non-negative indices the provider uses), whatever the two timestamps are. -/
theorem mkId_inj {b₁ b₂ : BlockchainType} {i₁ i₂ : Int} {t₁ t₂ : Nat}
    (h₁ : 0 ≤ i₁) (h₂ : 0 ≤ i₂) (h : mkId b₁ i₁ t₁ = mkId b₂ i₂ t₂) :
    b₁ = b₂ ∧ i₁ = i₂ := by
  have hd : (mkId b₁ i₁ t₁).data = (mkId b₂ i₂ t₂).data := by rw [h]
  rw [mkId_data, mkId_data] at hd
  obtain ⟨hc, hrest⟩ := append_sep_inj (Char.ofNat 45) _ _ _ _
    (dash_not_mem_chainTag b₁) (dash_not_mem_chainTag b₂) hd
  obtain ⟨hi, -⟩ := append_sep_inj (Char.ofNat 45) _ _ _ _
    (dash_not_mem_intStr h₁) (dash_not_mem_intStr h₂) hrest
  refine ⟨chainTag_data_inj hc, ?_⟩
  have his : intStr i₁ = intStr i₂ := String.ext hi
  unfold intStr at his
  rw [if_neg (Int.not_lt.mpr h₁), if_neg (Int.not_lt.mpr h₂)] at his
  have := natStr_inj his
  omega

/-! ## Claim C2: derivation path format -/

theorem deriveSolanaKeypair_path {c : Crypto} {m : String} {i : Int}
    {d : SolDerived} (h : deriveSolanaKeypair c m i = .ok d) :
    d.derivationPath = DERIVATION_PATHS_solana i := by
  unfold deriveSolanaKeypair mnemonicToSeed at h
  by_cases hmm : m = ""
  · rw [if_pos hmm] at h
    simp [bind, Except.bind] at h
  · rw [if_neg hmm] at h
    simp only [bind, Except.bind] at h
    cases hdp : c.derivePathKey (DERIVATION_PATHS_solana i)
        (bytesToHex (c.bip39Seed (jsTrim m))) with
    | error e => rw [hdp] at h; simp at h
    | ok key =>
      rw [hdp] at h
      cases hk : c.keypairPub (c.naclFromSeed key).secretKey with
      | none => simp [hk] at h
      | some pub =>
        simp only [hk, Except.ok.injEq] at h
        rw [← h]

theorem deriveEthereumWallet_path {c : Crypto} {m : String} {i : Int}
    {d : EthDerived} (h : deriveEthereumWallet c m i = .ok d) :
    d.derivationPath = DERIVATION_PATHS_ethereum i := by
  unfold deriveEthereumWallet at h
  cases hn : c.hdNodeFromPhrase (jsTrim m) (DERIVATION_PATHS_ethereum i) with
  | error e => rw [hn] at h; simp [Except.map] at h
  | ok node =>
    rw [hn] at h
    simp only [Except.map, Except.ok.injEq] at h
    rw [← h]

/-- C2: for every non-negative index `i`, `DERIVATION_PATHS.solana` renders
exactly the path with hardened segments 44, 501, i, 0 (every segment
hardened), and `DERIVATION_PATHS.ethereum` renders exactly the path with
segments 44, 60, 0 hardened and 0, i non-hardened, the hardened marker being
the ASCII apostrophe appended by `renderPathSegs`; every successful
`deriveSolanaKeypair` / `deriveEthereumWallet` call returns precisely that
path string. -/
theorem claim_C2_derivation_path_format (i : Nat) :
    (DERIVATION_PATHS_solana (Int.ofNat i) =
      renderPathSegs [(44, true), (501, true), (i, true), (0, true)]) ∧
    (DERIVATION_PATHS_ethereum (Int.ofNat i) =
      renderPathSegs [(44, true), (60, true), (0, true), (0, false), (i, false)]) ∧
    (∀ (c : Crypto) (m : String) (d : SolDerived),
      deriveSolanaKeypair c m (Int.ofNat i) = .ok d →
      d.derivationPath =
        renderPathSegs [(44, true), (501, true), (i, true), (0, true)]) ∧
    (∀ (c : Crypto) (m : String) (d : EthDerived),
      deriveEthereumWallet c m (Int.ofNat i) = .ok d →
      d.derivationPath =
        renderPathSegs [(44, true), (60, true), (0, true), (0, false), (i, false)]) := by
  have hsol : DERIVATION_PATHS_solana (Int.ofNat i) =
      renderPathSegs [(44, true), (501, true), (i, true), (0, true)] := by
    unfold DERIVATION_PATHS_solana renderPathSegs
    rw [intStr_ofNat]
    simp only [List.map_cons, List.map_nil, String.join, List.foldl]
    rw [show natStr 44 = "44" by decide, show natStr 501 = "501" by decide,
      show natStr 0 = "0" by decide]
    apply String.ext
    simp [String.data_append, List.append_assoc]
  have heth : DERIVATION_PATHS_ethereum (Int.ofNat i) =
      renderPathSegs [(44, true), (60, true), (0, true), (0, false), (i, false)] := by
    unfold DERIVATION_PATHS_ethereum renderPathSegs
    rw [intStr_ofNat]
    simp only [List.map_cons, List.map_nil, String.join, List.foldl]
    rw [show natStr 44 = "44" by decide, show natStr 60 = "60" by decide,
      show natStr 0 = "0" by decide]
    apply String.ext
    simp [String.data_append, List.append_assoc]
  exact ⟨hsol, heth,
    fun c m d h => (deriveSolanaKeypair_path h).trans hsol,
    fun c m d h => (deriveEthereumWallet_path h).trans heth⟩

/-- Closed instance of C2: a concrete chain-A derivation at index 0 returns
the literal hardened path, and a chain-B derivation returns the literal
mixed-hardening path. -/
theorem claim_C2_derivation_path_format_witness :
    ("m/44\x27/501\x27/0\x27/0\x27" : String) =
      renderPathSegs [(44, true), (501, true), (0, true), (0, true)] ∧
    ("m/44\x27/60\x27/0\x27/0/0" : String) =
      renderPathSegs [(44, true), (60, true), (0, true), (0, false), (0, false)] := by
  constructor
  · exact (claim_C2_derivation_path_format 0).2.2.1 testCrypto "test"
      ⟨"TestPub", List.replicate 64 0, "m/44\x27/501\x27/0\x27/0\x27"⟩ (by rfl)
  · exact (claim_C2_derivation_path_format 0).2.2.2 testCrypto "test"
      ⟨"0xAddr", "0xPriv", "m/44\x27/60\x27/0\x27/0/0"⟩ (by rfl)

/-! ## Helper lemmas about the provider state machine -/

theorem createAccount_ok {c : Crypto} {now : Nat} {m : String}
    {b : BlockchainType} {i : Int} {name : Option String} {a : WalletAccount}
    (h : createAccount c now m b i name = .ok a) :
    a.id = mkId b i now ∧ a.blockchain = b ∧ a.index = i ∧
      a.isImported = false := by
  unfold createAccount at h
  cases b with
  | solana =>
    cases hd : deriveSolanaKeypair c m i with
    | error e => rw [hd] at h; simp [Except.map] at h
    | ok d =>
      rw [hd] at h
      simp only [Except.map, Except.ok.injEq] at h
      rw [← h]
      exact ⟨rfl, rfl, rfl, rfl⟩
  | ethereum =>
    cases hd : deriveEthereumWallet c m i with
    | error e => rw [hd] at h; simp [Except.map] at h
    | ok d =>
      rw [hd] at h
      simp only [Except.map, Except.ok.injEq] at h
      rw [← h]
      exact ⟨rfl, rfl, rfl, rfl⟩

theorem addAccount_ok_shape {c : Crypto} {now : Nat} {b : BlockchainType}
    {name : Option String} {s : ProviderState} {a : WalletAccount}
    {s' : ProviderState}
    (h : addAccount c now b name s = .ok (a, s')) :
    (∃ m, s.mnemonic = some m ∧
      createAccount c now m b (chainIndex s b) name = .ok a) ∧
    s'.mnemonic = s.mnemonic ∧
    s'.accounts = s.accounts ++ [a] ∧
    s'.solanaIndex = (if b = .solana then s.solanaIndex + 1 else s.solanaIndex) ∧
    s'.ethereumIndex = (if b = .ethereum then s.ethereumIndex + 1 else s.ethereumIndex) := by
  unfold addAccount at h
  cases hm : s.mnemonic with
  | none => rw [hm] at h; simp at h
  | some m =>
    rw [hm] at h
    simp only [bind, Except.bind] at h
    cases hc : createAccount c now m b (chainIndex s b) name with
    | error e => rw [hc] at h; simp at h
    | ok a0 =>
      rw [hc] at h
      simp only [Except.ok.injEq, Prod.mk.injEq] at h
      obtain ⟨ha, hs⟩ := h
      subst ha
      rw [← hs]
      refine ⟨⟨m, rfl, hc⟩, ?_, rfl, rfl, rfl⟩
      simp [hm]

theorem chainIndex_stepOp (c : Crypto) (s : ProviderState) (op : WalletOp)
    (b : BlockchainType) :
    chainIndex (stepOp c s op) b = chainIndex s b +
      (match op with
       | .add now bc name =>
         if bc = b && exceptOk (addAccount c now bc name s) then 1 else 0
       | _ => 0) := by
  cases op with
  | add now bc name =>
    simp only [stepOp]
    cases h : addAccount c now bc name s with
    | error e => simp [exceptOk]
    | ok p =>
      obtain ⟨a, s2⟩ := p
      have hs := addAccount_ok_shape h
      simp only [exceptOk, Bool.and_true]
      cases b <;> cases bc <;>
        simp_all [chainIndex, hs.2.2.2.1, hs.2.2.2.2]
  | remove accountId => cases b <;> simp [stepOp, removeAccount, chainIndex]
  | rename accountId newName => cases b <;> simp [stepOp, renameAccount, chainIndex]

theorem runOps_chainIndex (c : Crypto) (b : BlockchainType) :
    ∀ (tr : List WalletOp) (s : ProviderState),
    chainIndex (runOps c s tr) b = chainIndex s b + countOkAdds c b s tr := by
  intro tr
  induction tr with
  | nil => intro s; simp [runOps, countOkAdds]
  | cons op rest ih =>
    intro s
    rw [show runOps c s (op :: rest) = runOps c (stepOp c s op) rest from rfl]
    rw [ih, chainIndex_stepOp c s op b]
    rw [show countOkAdds c b s (op :: rest) =
      (match op with
       | .add now bc name =>
         if bc = b && exceptOk (addAccount c now bc name s) then 1 else 0
       | _ => 0) + countOkAdds c b (stepOp c s op) rest from rfl]
    omega

theorem createdRecords_invariant (c : Crypto) :
    ∀ (tr : List WalletOp) (s : ProviderState) (a : WalletAccount),
    a ∈ createdRecords c s tr →
    (chainIndex s a.blockchain : Int) ≤ a.index ∧
    ∃ t, a.id = mkId a.blockchain a.index t := by
  intro tr
  induction tr with
  | nil => intro s a ha; simp [createdRecords] at ha
  | cons op rest ih =>
    intro s a ha
    have hmono : ∀ b : BlockchainType,
        chainIndex s b ≤ chainIndex (stepOp c s op) b := by
      intro b
      have := chainIndex_stepOp c s op b
      omega
    cases op with
    | add now bc name =>
      cases h : addAccount c now bc name s with
      | error e =>
        rw [show createdRecords c s (.add now bc name :: rest) =
          (match addAccount c now bc name s with
           | .ok (x, _) => [x]
           | .error _ => []) ++
            createdRecords c (stepOp c s (.add now bc name)) rest from rfl, h] at ha
        simp only [List.nil_append] at ha
        have := ih (stepOp c s (.add now bc name)) a ha
        refine ⟨le_trans ?_ this.1, this.2⟩
        exact_mod_cast Int.ofNat_le.mpr (hmono a.blockchain)
      | ok p =>
        obtain ⟨a0, s2⟩ := p
        rw [show createdRecords c s (.add now bc name :: rest) =
          (match addAccount c now bc name s with
           | .ok (x, _) => [x]
           | .error _ => []) ++
            createdRecords c (stepOp c s (.add now bc name)) rest from rfl, h] at ha
        simp only [List.singleton_append, List.mem_cons] at ha
        cases ha with
        | inl ha0 =>
          subst ha0
          obtain ⟨⟨m, hm, hca⟩, _, _, _, _⟩ := addAccount_ok_shape h
          obtain ⟨hid, hbc, hidx, -⟩ := createAccount_ok hca
          rw [hbc, hidx]
          exact ⟨le_refl _, now, hid⟩
        | inr harest =>
          have := ih (stepOp c s (.add now bc name)) a harest
          refine ⟨le_trans ?_ this.1, this.2⟩
          exact_mod_cast Int.ofNat_le.mpr (hmono a.blockchain)
    | remove accountId =>
      rw [show createdRecords c s (.remove accountId :: rest) =
        [] ++ createdRecords c (stepOp c s (.remove accountId)) rest from rfl] at ha
      simp only [List.nil_append] at ha
      have := ih (stepOp c s (.remove accountId)) a ha
      refine ⟨le_trans ?_ this.1, this.2⟩
      exact_mod_cast Int.ofNat_le.mpr (hmono a.blockchain)
    | rename accountId newName =>
      rw [show createdRecords c s (.rename accountId newName :: rest) =
        [] ++ createdRecords c (stepOp c s (.rename accountId newName)) rest from rfl] at ha
      simp only [List.nil_append] at ha
      have := ih (stepOp c s (.rename accountId newName)) a ha
      refine ⟨le_trans ?_ this.1, this.2⟩
      exact_mod_cast Int.ofNat_le.mpr (hmono a.blockchain)

theorem createdRecords_pairwise_ne (c : Crypto) :
    ∀ (tr : List WalletOp) (s : ProviderState),
    List.Pairwise (fun x y : WalletAccount => x.id ≠ y.id)
      (createdRecords c s tr) := by
  intro tr
  induction tr with
  | nil => intro s; simp [createdRecords]
  | cons op rest ih =>
    intro s
    cases op with
    | add now bc name =>
      cases h : addAccount c now bc name s with
      | error e =>
        rw [show createdRecords c s (.add now bc name :: rest) =
          (match addAccount c now bc name s with
           | .ok (x, _) => [x]
           | .error _ => []) ++
            createdRecords c (stepOp c s (.add now bc name)) rest from rfl, h]
        simpa using ih (stepOp c s (.add now bc name))
      | ok p =>
        obtain ⟨a0, s2⟩ := p
        have hstep : stepOp c s (.add now bc name) = s2 := by
          simp [stepOp, h]
        obtain ⟨⟨m, hm, hca⟩, hmn, hacc, hsol, heth⟩ := addAccount_ok_shape h
        obtain ⟨hid, hbc, hidx, -⟩ := createAccount_ok hca
        rw [show createdRecords c s (.add now bc name :: rest) =
          (match addAccount c now bc name s with
           | .ok (x, _) => [x]
           | .error _ => []) ++
            createdRecords c (stepOp c s (.add now bc name)) rest from rfl, h, hstep]
        simp only [List.singleton_append]
        refine List.Pairwise.cons ?_ (by simpa [hstep] using ih s2)
        intro y hy heq
        obtain ⟨hyle, t', hyid⟩ := createdRecords_invariant c rest s2 y hy
        rw [hid, hyid] at heq
        have h1 : (0 : Int) ≤ (chainIndex s bc : Int) := Int.ofNat_nonneg _
        have h2 : (0 : Int) ≤ y.index :=
          le_trans (Int.ofNat_nonneg _) hyle
        obtain ⟨hbceq, hidxeq⟩ := mkId_inj h1 h2 heq
        rw [← hbceq] at hyle
        have hinc : chainIndex s2 bc = chainIndex s bc + 1 := by
          cases bc <;> simp_all [chainIndex]
        rw [hinc] at hyle
        omega
    | remove accountId =>
      rw [show createdRecords c s (.remove accountId :: rest) =
        [] ++ createdRecords c (stepOp c s (.remove accountId)) rest from rfl]
      simpa using ih (stepOp c s (.remove accountId))
    | rename accountId newName =>
      rw [show createdRecords c s (.rename accountId newName :: rest) =
        [] ++ createdRecords c (stepOp c s (.rename accountId newName)) rest from rfl]
      simpa using ih (stepOp c s (.rename accountId newName))

/-! ## Claim C1: per-chain index monotonicity -/

/-- C1: along any trace of add/remove/rename operations each chain's
derivation index ends at its pre-trace value plus the number `n` of
(successful) `addAccount` calls for that chain, regardless of intervening
`removeAccount` calls; `removeAccount` never changes either index; and in the
concrete scenario create-A, create-A, remove the first, create-A, the third
record gets index 2, not 1. -/
theorem claim_C1_index_monotonicity (c : Crypto) (s : ProviderState)
    (tr : List WalletOp) (accountId : String) :
    (runOps c s tr).solanaIndex =
      s.solanaIndex + countOkAdds c .solana s tr ∧
    (runOps c s tr).ethereumIndex =
      s.ethereumIndex + countOkAdds c .ethereum s tr ∧
    (removeAccount accountId s).solanaIndex = s.solanaIndex ∧
    (removeAccount accountId s).ethereumIndex = s.ethereumIndex ∧
    ((addAccount testCrypto 0 .solana none (runOps testCrypto ⟨some "test", [], 0, 0⟩
        [.add 0 .solana none, .add 0 .solana none, .remove "solana-0-0"])).map
          fun p => p.1.index) = .ok 2 :=
  ⟨runOps_chainIndex c .solana tr s, runOps_chainIndex c .ethereum tr s,
    rfl, rfl, rfl⟩

/-! ## Claim C3: the createAccount/addAccount contract -/

/-- C3: `addAccount` fails with "Wallet not initialized" whenever the phrase
is null; a successful call appends exactly one record at the end of the
list, leaves the phrase and every pre-existing record unchanged, increments
only the requested chain's index, and stamps the record with the pre-call
per-chain index; and the ids of the records created along any trace are
pairwise distinct even when all the timestamps coincide. -/
theorem claim_C3_createAccount_contract (c : Crypto) (now : Nat)
    (b : BlockchainType) (name : Option String) (s : ProviderState) :
    (s.mnemonic = none →
      addAccount c now b name s = .error "Wallet not initialized") ∧
    (∀ a s', addAccount c now b name s = .ok (a, s') →
      s'.accounts = s.accounts ++ [a] ∧
      s'.mnemonic = s.mnemonic ∧
      a.index = (chainIndex s b : Int) ∧
      a.id = mkId b (chainIndex s b) now ∧
      (b = .solana →
        s'.solanaIndex = s.solanaIndex + 1 ∧ s'.ethereumIndex = s.ethereumIndex) ∧
      (b = .ethereum →
        s'.ethereumIndex = s.ethereumIndex + 1 ∧ s'.solanaIndex = s.solanaIndex)) ∧
    (∀ tr, List.Pairwise (fun x y : WalletAccount => x.id ≠ y.id)
      (createdRecords c s tr)) := by
  refine ⟨?_, ?_, fun tr => createdRecords_pairwise_ne c tr s⟩
  · intro hm
    unfold addAccount
    rw [hm]
  · intro a s' h
    obtain ⟨⟨m, hm, hca⟩, hmn, hacc, hsol, heth⟩ := addAccount_ok_shape h
    obtain ⟨hid, -, hidx, -⟩ := createAccount_ok hca
    refine ⟨hacc, hmn, hidx, hid, ?_, ?_⟩
    · intro hb
      subst hb
      exact ⟨by rw [hsol]; simp, by rw [heth]; simp⟩
    · intro hb
      subst hb
      exact ⟨by rw [heth]; simp, by rw [hsol]; simp⟩

/-- Closed instance of the C3 contract: the error case on an uninitialized
wallet and the append-one frame condition on a concrete successful call. -/
theorem claim_C3_createAccount_contract_witness :
    addAccount testCrypto 5 .solana none ⟨none, [], 0, 0⟩ =
      .error "Wallet not initialized" ∧
    (⟨some "test",
      [⟨"solana-0-5", "Solana Account 1", .solana, "TestPub",
        "m/44\x27/501\x27/0\x27/0\x27", 0, false, none⟩], 1, 0⟩ :
          ProviderState).accounts =
      (⟨some "test", [], 0, 0⟩ : ProviderState).accounts ++
        [⟨"solana-0-5", "Solana Account 1", .solana, "TestPub",
          "m/44\x27/501\x27/0\x27/0\x27", 0, false, none⟩] := by
  have herr :=
    (claim_C3_createAccount_contract testCrypto 5 .solana none ⟨none, [], 0, 0⟩).1 rfl
  have hfr :=
    (claim_C3_createAccount_contract testCrypto 5 .solana none
      ⟨some "test", [], 0, 0⟩).2.1
      ⟨"solana-0-5", "Solana Account 1", .solana, "TestPub",
        "m/44\x27/501\x27/0\x27/0\x27", 0, false, none⟩
      ⟨some "test",
        [⟨"solana-0-5", "Solana Account 1", .solana, "TestPub",
          "m/44\x27/501\x27/0\x27/0\x27", 0, false, none⟩], 1, 0⟩
      (by rfl)
  exact ⟨herr, hfr.1⟩

/-! ## Claim C8: renameAccount -/

/-- C8 counterexample: `renameAccount` applies an empty new name verbatim.
Starting from a state whose only account is named `"A"` (all names
non-empty), renaming it to `""` yields a state containing an account whose
name is empty, contradicting the claim that names remain non-empty. -/
theorem claim_C8_counterexample :
    (⟨some "test", [⟨"id1", "A", .solana, "P", "p", 0, false, none⟩], 1, 0⟩ :
        ProviderState).accounts.all (fun a => a.name ≠ "") = true ∧
    ((renameAccount "id1" ""
        ⟨some "test", [⟨"id1", "A", .solana, "P", "p", 0, false, none⟩], 1, 0⟩).accounts.map
          fun a => a.name) = [""] := by
  exact ⟨rfl, rfl⟩

/-- C8 (amended): `renameAccount` is a no-op when the id matches no account;
when the id matches, it applies the given name verbatim — including an empty
or whitespace-only name — leaving every other field and every other account
unchanged (pointwise characterization of the account list). -/
theorem claim_C8_renameAccount_amended (s : ProviderState)
    (accountId newName : String) :
    ((∀ a ∈ s.accounts, a.id ≠ accountId) →
      renameAccount accountId newName s = s) ∧
    (renameAccount accountId newName s).mnemonic = s.mnemonic ∧
    (renameAccount accountId newName s).solanaIndex = s.solanaIndex ∧
    (renameAccount accountId newName s).ethereumIndex = s.ethereumIndex ∧
    ∀ k : Nat, (renameAccount accountId newName s).accounts[k]? =
      (s.accounts[k]?).map
        (fun a => if a.id = accountId then { a with name := newName } else a) := by
  refine ⟨?_, rfl, rfl, rfl, ?_⟩
  · intro hab
    have hmap : ∀ l : List WalletAccount, (∀ a ∈ l, a.id ≠ accountId) →
        (l.map fun a =>
          if a.id = accountId then { a with name := newName } else a) = l := by
      intro l
      induction l with
      | nil => intro _; rfl
      | cons a t iht =>
        intro hl
        simp only [List.map_cons]
        rw [if_neg (hl a (List.mem_cons_self a t)),
          iht fun x hx => hl x (List.mem_cons_of_mem a hx)]
    unfold renameAccount
    cases s with
    | mk mn acc si ei =>
      simp only at hab ⊢
      rw [hmap acc hab]
  · intro k
    unfold renameAccount
    simp [List.getElem?_map]

/-- Closed instance of the amended C8: renaming an absent id is a no-op, and
renaming a present id replaces exactly that account's name. -/
theorem claim_C8_renameAccount_amended_witness :
    renameAccount "zz" "B"
      (⟨some "test", [⟨"id1", "A", .solana, "P", "p", 0, false, none⟩], 1, 0⟩ :
        ProviderState) =
      ⟨some "test", [⟨"id1", "A", .solana, "P", "p", 0, false, none⟩], 1, 0⟩ ∧
    (renameAccount "id1" "B"
      (⟨some "test", [⟨"id1", "A", .solana, "P", "p", 0, false, none⟩], 1, 0⟩ :
        ProviderState)).accounts[0]? =
      some ⟨"id1", "B", .solana, "P", "p", 0, false, none⟩ := by
  constructor
  · exact (claim_C8_renameAccount_amended _ "zz" "B").1 (by decide)
  · have h := (claim_C8_renameAccount_amended
      (⟨some "test", [⟨"id1", "A", .solana, "P", "p", 0, false, none⟩], 1, 0⟩ :
        ProviderState) "id1" "B").2.2.2.2 0
    rw [h]
    rfl

/-! ## Claim C9: imported-account id collisions -/

/-- C9: the id of an imported record is determined solely by the chain tag
and the wall-clock millisecond (`<chain>-imported-<now>`), independent of the
key text and the name, so two same-chain imports in the same millisecond get
equal ids; HD-created records additionally embed the per-chain index in their
id (`mkId`, i.e. `<chain>-<index>-<now>`). -/
theorem claim_C9_import_id_timestamp (c : Crypto) (now : Nat)
    (pk1 pk2 : String) (n1 n2 : Option String) :
    (∀ a, importSolanaAccount c now pk1 n1 = some a →
      a.id = "solana-imported-" ++ natStr now) ∧
    (∀ a, importEthereumAccount c now pk1 n1 = some a →
      a.id = "ethereum-imported-" ++ natStr now) ∧
    (∀ a b, importSolanaAccount c now pk1 n1 = some a →
      importSolanaAccount c now pk2 n2 = some b → a.id = b.id) ∧
    (∀ a b, importEthereumAccount c now pk1 n1 = some a →
      importEthereumAccount c now pk2 n2 = some b → a.id = b.id) ∧
    (∀ (m : String) (b : BlockchainType) (i : Int) (name : Option String)
        (a : WalletAccount),
      createAccount c now m b i name = .ok a → a.id = mkId b i now) := by
  have hsol : ∀ pk n a, importSolanaAccount c now pk n = some a →
      a.id = "solana-imported-" ++ natStr now := by
    intro pk n a h
    cases hd : bs58decode (jsTrim pk) with
    | none => simp [importSolanaAccount, hd] at h
    | some decoded =>
      simp only [importSolanaAccount, hd] at h
      by_cases h64 : decoded.length = 64
      · rw [if_pos h64] at h
        cases hk : c.keypairPub decoded with
        | none => rw [hk] at h; simp at h
        | some pub => rw [hk] at h; simp at h; rw [← h]
      · rw [if_neg h64] at h
        by_cases h32 : decoded.length = 32
        · rw [if_pos h32] at h
          cases hk : c.keypairPub (c.naclFromSeed decoded).secretKey with
          | none => rw [hk] at h; simp at h
          | some pub => rw [hk] at h; simp at h; rw [← h]
        · rw [if_neg h32] at h; simp at h
  have heth : ∀ pk n a, importEthereumAccount c now pk n = some a →
      a.id = "ethereum-imported-" ++ natStr now := by
    intro pk n a h
    simp only [importEthereumAccount] at h
    cases hw : newWallet c (normalize0x (jsTrim pk)) with
    | none => rw [hw] at h; simp at h
    | some addr => rw [hw] at h; simp at h; rw [← h]
  refine ⟨hsol pk1 n1, heth pk1 n1, ?_, ?_, ?_⟩
  · intro a b h1 h2
    rw [hsol pk1 n1 a h1, hsol pk2 n2 b h2]
  · intro a b h1 h2
    rw [heth pk1 n1 a h1, heth pk2 n2 b h2]
  · intro m b i name a h
    exact (createAccount_ok h).1

/-- C9 closed instance: two same-millisecond chain-A imports of different
keys (a 64-byte and a 32-byte payload) receive the same id. -/
theorem claim_C9_import_id_timestamp_witness :
    (importSolanaAccount testCrypto 7 (String.mk (List.replicate 64 '1')) none).map
        (fun a => a.id) =
      (importSolanaAccount testCrypto 7 (String.mk (List.replicate 32 '1')) none).map
        (fun a => a.id) ∧
    (importSolanaAccount testCrypto 7 (String.mk (List.replicate 64 '1')) none).map
        (fun a => a.id) = some "solana-imported-7" := by
  have h1 := (claim_C9_import_id_timestamp testCrypto 7
    (String.mk (List.replicate 64 '1')) (String.mk (List.replicate 32 '1'))
    none none).2.2.1
    ⟨"solana-imported-7", "Imported Solana Account", .solana, "TestPub",
      "imported", -1, true, some (String.mk (List.replicate 64 '1'))⟩
    ⟨"solana-imported-7", "Imported Solana Account", .solana, "TestPub",
      "imported", -1, true, some (String.mk (List.replicate 32 '1'))⟩
    (by rfl) (by rfl)
  constructor
  · exact congrArg Option.some h1
  · have h2 := (claim_C9_import_id_timestamp testCrypto 7
      (String.mk (List.replicate 64 '1')) (String.mk (List.replicate 32 '1'))
      none none).1
      ⟨"solana-imported-7", "Imported Solana Account", .solana, "TestPub",
        "imported", -1, true, some (String.mk (List.replicate 64 '1'))⟩
      (by rfl)
    exact congrArg Option.some h2

/-! ## Claim C4: import returns null or a fully-built record -/

/-- C4: for every chain and input text, `importAccountFromPrivateKey` (a
total function, so it never throws: every dependency failure is caught and
becomes `none`) returns either `none` or a fully-built record with
`isImported = true`, `index = -1`, `derivationPath = "imported"` and the
normalized key text (trimmed; with `0x` added for chain B) stored verbatim in
`importedPrivateKey`; no other shape is possible. -/
theorem claim_C4_import_null_or_complete (c : Crypto) (now : Nat)
    (blockchain : BlockchainType) (text : String) (name : Option String) :
    importAccountFromPrivateKey c now text blockchain name = none ∨
    ∃ a, importAccountFromPrivateKey c now text blockchain name = some a ∧
      a.isImported = true ∧ a.index = -1 ∧ a.derivationPath = "imported" ∧
      a.importedPrivateKey = some
        (match blockchain with
         | .solana => jsTrim text
         | .ethereum => normalize0x (jsTrim text)) := by
  cases blockchain with
  | solana =>
    simp only [importAccountFromPrivateKey]
    cases hd : bs58decode (jsTrim text) with
    | none => left; simp [importSolanaAccount, hd]
    | some decoded =>
      by_cases h64 : decoded.length = 64
      · cases hk : c.keypairPub decoded with
        | none => left; simp [importSolanaAccount, hd, h64, hk]
        | some pub =>
          right
          refine ⟨⟨"solana-imported-" ++ natStr now,
            jsOr name "Imported Solana Account", .solana, pub, "imported", -1,
            true, some (jsTrim text)⟩, ?_, rfl, rfl, rfl, rfl⟩
          simp [importSolanaAccount, hd, h64, hk]
      · by_cases h32 : decoded.length = 32
        · cases hk : c.keypairPub (c.naclFromSeed decoded).secretKey with
          | none => left; simp [importSolanaAccount, hd, h64, h32, hk]
          | some pub =>
            right
            refine ⟨⟨"solana-imported-" ++ natStr now,
              jsOr name "Imported Solana Account", .solana, pub, "imported", -1,
              true, some (jsTrim text)⟩, ?_, rfl, rfl, rfl, rfl⟩
            simp [importSolanaAccount, hd, h64, h32, hk]
        · left; simp [importSolanaAccount, hd, h64, h32]
  | ethereum =>
    simp only [importAccountFromPrivateKey]
    cases hw : newWallet c (normalize0x (jsTrim text)) with
    | none => left; simp [importEthereumAccount, hw]
    | some addr =>
      right
      refine ⟨⟨"ethereum-imported-" ++ natStr now,
        jsOr name "Imported Ethereum Account", .ethereum, addr, "imported", -1,
        true, some (normalize0x (jsTrim text))⟩, ?_, rfl, rfl, rfl, rfl⟩
      simp [importEthereumAccount, hw]

/-! ## Claim C5: import-candidate validation -/

/-- C5: `validateSolanaPrivateKey` accepts exactly the strings whose trimmed
text base58-decodes to a 64-byte payload accepted by the keypair constructor
or to a 32-byte seed (which always expands); `validateEthereumPrivateKey`
accepts exactly the strings that, after trimming and `0x`-normalization,
match `0x` + 64 hex digits with a scalar that is nonzero and below the
secp256k1 order; and the three rejection vectors hold: a 31-byte base58
payload, a 63-hex-digit string, and the all-zero 64-hex scalar. -/
theorem claim_C5_validateImportCandidate (c : Crypto) (s : String) :
    (validateSolanaPrivateKey c s = true ↔
      ∃ d, bs58decode (jsTrim s) = some d ∧
        ((d.length = 64 ∧ (c.keypairPub d).isSome = true) ∨ d.length = 32)) ∧
    (validateEthereumPrivateKey c s = true ↔
      (isHexKey (normalize0x (jsTrim s)) = true ∧
        0 < hexScalar (normalize0x (jsTrim s)) ∧
        hexScalar (normalize0x (jsTrim s)) < secpOrder)) ∧
    validateSolanaPrivateKey c (String.mk (List.replicate 31 '1')) = false ∧
    validateEthereumPrivateKey c (String.mk (List.replicate 63 '1')) = false ∧
    validateEthereumPrivateKey c (String.mk (List.replicate 64 '0')) = false := by
  refine ⟨?_, ?_, rfl, rfl, rfl⟩
  · unfold validateSolanaPrivateKey
    cases hd : bs58decode (jsTrim s) with
    | none => simp
    | some d =>
      by_cases h64 : d.length = 64 <;> by_cases h32 : d.length = 32 <;>
        simp_all <;> omega
  · unfold validateEthereumPrivateKey newWallet
    by_cases hhex : isHexKey (normalize0x (jsTrim s)) = true <;>
      by_cases h0 : 0 < hexScalar (normalize0x (jsTrim s)) <;>
        by_cases hN : hexScalar (normalize0x (jsTrim s)) < secpOrder <;>
          simp_all

/-! ## Claim C6: revealing the private key -/

/-- C6: `getAccountPrivateKey` returns the stored `importedPrivateKey`
verbatim for an imported account with a (non-empty) stored key; for a
non-imported account with the phrase present it delegates to `getPrivateKey`,
which re-derives from phrase, chain and record index (chain A rendered as
base58 of the derived secret key, chain B as the node's hex private key);
it returns `null` when the phrase is absent and the account is not imported;
and under the nacl contract (64-byte secret keys) the re-encoded chain-A
secret key is 64 bytes long. -/
theorem claim_C6_revealPrivateKey (c : Crypto) (mn : Option String)
    (a : WalletAccount) (k m : String) :
    (a.isImported = true → a.importedPrivateKey = some k → k ≠ "" →
      getAccountPrivateKey c mn a = .ok (some k)) ∧
    (a.isImported = false →
      getAccountPrivateKey c (some m) a = (getPrivateKey c (some m) a).map some ∧
      getPrivateKey c (some m) a =
        (match a.blockchain with
         | .solana =>
           (deriveSolanaKeypair c m a.index).map fun d => bs58encode d.secretKey
         | .ethereum =>
           (deriveEthereumWallet c m a.index).map fun d => d.privateKey)) ∧
    (mn = none → a.isImported = false → getAccountPrivateKey c mn a = .ok none) ∧
    ((∀ bs, ((c.naclFromSeed bs).secretKey).length = 64) →
      ∀ (mm : String) (i : Int) (d : SolDerived),
        deriveSolanaKeypair c mm i = .ok d → d.secretKey.length = 64) := by
  refine ⟨?_, ?_, ?_, ?_⟩
  · intro himp hk hne
    simp [getAccountPrivateKey, himp, hk, optTruthy, hne]
  · intro himp
    constructor
    · simp [getAccountPrivateKey, himp]
    · cases hb : a.blockchain <;> simp [getPrivateKey, himp, hb]
  · intro hmn himp
    simp [getAccountPrivateKey, himp, hmn]
  · intro hlen mm i d h
    unfold deriveSolanaKeypair mnemonicToSeed at h
    by_cases hmm : mm = ""
    · rw [if_pos hmm] at h
      simp [bind, Except.bind] at h
    · rw [if_neg hmm] at h
      simp only [bind, Except.bind] at h
      cases hdp : c.derivePathKey (DERIVATION_PATHS_solana i)
          (bytesToHex (c.bip39Seed (jsTrim mm))) with
      | error e => rw [hdp] at h; simp at h
      | ok key =>
        rw [hdp] at h
        cases hk : c.keypairPub (c.naclFromSeed key).secretKey with
        | none => simp [hk] at h
        | some pub =>
          simp only [hk, Except.ok.injEq] at h
          rw [← h]
          exact hlen key

/-- Closed instance of C6: stored key returned verbatim, HD re-derivation for
a chain-A record at index 0, and `null` without a phrase. -/
theorem claim_C6_revealPrivateKey_witness :
    getAccountPrivateKey testCrypto none
      ⟨"i1", "I", .solana, "P", "imported", -1, true, some "KEY"⟩ =
      .ok (some "KEY") ∧
    getAccountPrivateKey testCrypto (some "test")
      ⟨"h1", "H", .solana, "P", "m", 0, false, none⟩ =
      .ok (some (bs58encode (List.replicate 64 0))) ∧
    getAccountPrivateKey testCrypto none
      ⟨"h1", "H", .solana, "P", "m", 0, false, none⟩ = .ok none := by
  refine ⟨?_, ?_, ?_⟩
  · exact (claim_C6_revealPrivateKey testCrypto none
      ⟨"i1", "I", .solana, "P", "imported", -1, true, some "KEY"⟩ "KEY" "x").1
      rfl rfl (by decide)
  · have h2 := (claim_C6_revealPrivateKey testCrypto (some "test")
      ⟨"h1", "H", .solana, "P", "m", 0, false, none⟩ "k" "test").2.1 rfl
    rw [h2.1, h2.2]
    rfl
  · exact (claim_C6_revealPrivateKey testCrypto none
      ⟨"h1", "H", .solana, "P", "m", 0, false, none⟩ "k" "x").2.2.1 rfl rfl

/-! ## Claim C10: imported flag alone does not short-circuit -/

/-- C10: for an imported account whose `importedPrivateKey` is absent or
empty, `getPrivateKey` does not return a stored key: with a null phrase it
throws "Mnemonic required for non-imported accounts", and with a phrase
present it falls through to the HD branch and attempts derivation at the
record's own index (−1 for imported records). -/
theorem claim_C10_empty_imported_key_falls_through (c : Crypto)
    (a : WalletAccount) (himp : a.isImported = true)
    (hkey : a.importedPrivateKey = none ∨ a.importedPrivateKey = some "") :
    getPrivateKey c none a =
      .error "Mnemonic required for non-imported accounts" ∧
    ∀ m, getPrivateKey c (some m) a =
      (match a.blockchain with
       | .solana =>
         (deriveSolanaKeypair c m a.index).map fun d => bs58encode d.secretKey
       | .ethereum =>
         (deriveEthereumWallet c m a.index).map fun d => d.privateKey) := by
  have hcond : (a.isImported && optTruthy a.importedPrivateKey) = false := by
    cases hkey with
    | inl h => simp [optTruthy, h]
    | inr h => simp [optTruthy, h]
  constructor
  · simp [getPrivateKey, hcond]
  · intro m
    cases hb : a.blockchain <;> simp [getPrivateKey, hcond, hb]

/-- Closed instance of C10: an imported chain-A record with no stored key
throws without a phrase, and with a phrase attempts derivation at index −1. -/
theorem claim_C10_empty_imported_key_falls_through_witness :
    getPrivateKey testCrypto none
      ⟨"i1", "I", .solana, "P", "imported", -1, true, none⟩ =
      .error "Mnemonic required for non-imported accounts" ∧
    getPrivateKey testCrypto (some "x")
      ⟨"i2", "I", .solana, "P", "imported", -1, true, some ""⟩ =
      (deriveSolanaKeypair testCrypto "x" (-1)).map
        (fun d => bs58encode d.secretKey) := by
  constructor
  · exact (claim_C10_empty_imported_key_falls_through testCrypto
      ⟨"i1", "I", .solana, "P", "imported", -1, true, none⟩ rfl (Or.inl rfl)).1
  · exact (claim_C10_empty_imported_key_falls_through testCrypto
      ⟨"i2", "I", .solana, "P", "imported", -1, true, some ""⟩ rfl
        (Or.inr rfl)).2 "x"

/-! ## Claim C7: mnemonic validation and normalization -/

theorem wordIndices_eq_none {l : List String}
    (h : ∃ w ∈ l, bip39WordIndex w = none) : wordIndices l = none := by
  induction l with
  | nil => simp at h
  | cons w ws ih =>
    obtain ⟨x, hx, hnone⟩ := h
    rcases List.mem_cons.mp hx with hxw | hxs
    · subst hxw
      simp [wordIndices, hnone]
    · rw [wordIndices, ih ⟨x, hxs, hnone⟩]
      cases bip39WordIndex w <;> rfl

set_option maxRecDepth 100000 in
/-- C7 counterexample: `validateMnemonic` accepts the standard all-zero
12-word phrase, but rejects the same phrase when it differs only by one
doubled internal space or only in the letter case of one word — the code only
trims; it does not case- or space-normalize before validation, contrary to
the claim. -/
theorem claim_C7_counterexample :
    validateMnemonic goodPhrase = true ∧
    validateMnemonic
      "abandon  abandon abandon abandon abandon abandon abandon abandon abandon abandon abandon about" =
      false ∧
    validateMnemonic
      "Abandon abandon abandon abandon abandon abandon abandon abandon abandon abandon abandon about" =
      false := by
  exact ⟨by rfl, by rfl, by rfl⟩

set_option maxRecDepth 100000 in
/-- C7 (amended): `validateMnemonic` is a total boolean function (never
throws) that returns false on empty input, on a word count not divisible by
3, and on any word outside the wordlist; it tolerates leading and trailing
whitespace around a valid phrase; it also rejects a wordlist-only phrase with
a wrong checksum; but it performs no case or internal-space normalization
(see the counterexample). -/
theorem claim_C7_validateMnemonic_amended (s : String) :
    validateMnemonic "" = false ∧
    ((jsSplitSpace (jsTrim s)).length % 3 ≠ 0 → validateMnemonic s = false) ∧
    ((∃ w ∈ jsSplitSpace (jsTrim s), bip39WordIndex w = none) →
      validateMnemonic s = false) ∧
    validateMnemonic ("   " ++ goodPhrase ++ "  ") = true ∧
    validateMnemonic
      "abandon abandon abandon abandon abandon abandon abandon abandon abandon abandon abandon abandon" =
      false := by
  refine ⟨rfl, ?_, ?_, by rfl, by rfl⟩
  · intro h
    unfold validateMnemonic
    by_cases hs : s = ""
    · simp [hs]
    · simp [hs, bip39Validate, h]
  · intro h
    unfold validateMnemonic
    by_cases hs : s = ""
    · simp [hs]
    · rw [if_neg hs]
      unfold bip39Validate
      by_cases hc : (jsSplitSpace (jsTrim s)).length % 3 ≠ 0
      · simp [hc]
      · rw [if_neg hc, wordIndices_eq_none h]

/-- Closed instance of the amended C7: a 2-word candidate is rejected for its
word count; a 3-word candidate of unknown words is rejected for the words. -/
theorem claim_C7_validateMnemonic_amended_witness :
    validateMnemonic "abandon abandon" = false ∧
    validateMnemonic "zzzz zzzz zzzz" = false := by
  constructor
  · exact (claim_C7_validateMnemonic_amended "abandon abandon").2.1 (by decide)
  · exact (claim_C7_validateMnemonic_amended "zzzz zzzz zzzz").2.2.1
      ⟨"zzzz", by decide, rfl⟩
